import Mathlib

/-!
# The akc_key_value resource handler

A shallow embedding of `akc/resource_key_value.go`: the identifier codec
(`formatID`, `parseID`) and the four handlers (`resourceKeyValueCreate`,
`resourceKeyValueRead`, `resourceKeyValueUpdate`, `resourceKeyValueDelete`).

Go strings are modelled by Lean strings (the separator is the ASCII
character 47, so splitting on characters and on bytes agree).  A Go
`(value, error)` pair whose value is ignored on failure is an `Except`;
a run-time panic raised by an out-of-range slice index is a value of `Panic`.
What the handler takes from outside the file (the URL parser of the
standard library, the constant `client.LabelNone`, the client constructor and
the three client calls) is a field of `Provider` or `Client`.
-/

namespace Akc

/-! ## Strings and slices -/

/-- The fields of a character list cut at every occurrence of `sep`.  The
result is never empty, so the first branch of the inner match is not taken. -/
def splitFields (sep : Char) : List Char → List (List Char)
  | [] => [[]]
  | c :: cs =>
    if c = sep then [] :: splitFields sep cs
    else
      match splitFields sep cs with
      | [] => [[c]]
      | f :: fs => (c :: f) :: fs

/-- Go `strings.Split(s, sep)` for a one-character separator: the substrings
between the separators, `n + 1` of them when `s` holds `n` separators. -/
def Split (s : String) (sep : Char) : List String :=
  (splitFields sep s.data).map String.mk

/-- A run-time panic of the Go program. -/
inductive Panic where
  | indexOutOfRange (index length : Nat)
deriving DecidableEq, Repr

/-- Go slice indexing `xs[i]`: the element, or the index-out-of-range panic. -/
def index (xs : List String) (i : Nat) : Except Panic String :=
  match xs.get? i with
  | some x => .ok x
  | none => .error (.indexOutOfRange i xs.length)

/-- The text of `s` before its first `sep` (all of `s` when it has none). -/
def firstField (sep : Char) (s : List Char) : List Char :=
  s.takeWhile (fun c => c != sep)

/-- The text of `s` after its first `sep`, when it has one. -/
def afterFirst (sep : Char) (s : List Char) : Option (List Char) :=
  match s.dropWhile (fun c => c != sep) with
  | [] => none
  | _ :: rest => some rest

/-- The label cut at its first `/`. -/
def cutLabel (label : String) : String := String.mk (firstField '/' label.data)

/-- The field that follows the first field of `label ++ "/" ++ key`: the key
cut at its first `/` when the label has no `/`, and otherwise the second
`/`-separated field of the label. -/
def cutKey (label key : String) : String :=
  String.mk (firstField '/'
    (match afterFirst '/' label.data with
     | none => key.data
     | some rest => rest))

/-! ## The identifier codec -/

/-- The part of Go `url.URL` the handler reads. -/
structure URL where
  Scheme : String
  Host : String
  Path : String
deriving DecidableEq, Repr

/-- `formatID` of the source: `urlParse` stands for `url.Parse`.  The result is
the Go pair `(id, err)`, `err = none` being the nil error. -/
def formatID (urlParse : String → Except String URL)
    (endpoint : String) (label : String) (key : String) : String × Option String :=
  match urlParse endpoint with
  | .error _ => ("", some ("Unable to parse the given endpoint " ++ endpoint))
  | .ok url =>
    let name := url.Host
    (name ++ "/" ++ label ++ "/" ++ key, none)

/-- `parseID` of the source: the three leading fields of `id`, or the panic of
the first slice access that is out of range. -/
def parseID (id : String) : Except Panic (String × String × String) := do
  let split := Split id '/'
  let endpoint := "https://" ++ (← index split 0)
  let label ← index split 1
  let key ← index split 2
  return (endpoint, label, key)

/-! ## The remote store and the resource data -/

/-- Go `diag.Diagnostics`: the summaries of the error diagnostics, the empty
list being the nil value a successful handler returns. -/
abbrev Diagnostics := List String

/-- Go `diag.FromErr(err)` for a non-nil error: one error diagnostic whose
summary is the message of `err`. -/
def FromErr (err : String) : Diagnostics := [err]

/-- The fields of the result of `GetKeyValue` the handler reads. -/
structure KeyValue where
  Label : String
  Value : String
deriving DecidableEq, Repr

/-- A call of the remote store client, as recorded in the order it is made. -/
inductive Call where
  | GetKeyValue (label key : String)
  | SetKeyValue (label key value : String)
  | DeleteKeyValue (label key : String)
deriving DecidableEq, Repr

/-- Modelled from the spec: the remote store client of the client package,
over a remote state `σ`.  A lookup returns the entry or an error and leaves
the remote state alone; a write and a deletion return the Go error (`none` for
nil) and the remote state after the call. -/
structure Client (σ : Type) where
  GetKeyValue : σ → String → String → Except String KeyValue
  SetKeyValue : σ → String → String → String → Option String × σ
  DeleteKeyValue : σ → String → String → Option String × σ

/-- What the handlers take from outside the file: `url.Parse`, the constant
`client.LabelNone` and `client.BuildAppConfigurationClient` (the cancellation
context is not modelled). -/
structure Provider (σ : Type) where
  urlParse : String → Except String URL
  LabelNone : String
  BuildAppConfigurationClient : String → Except String (Client σ)

/-- The `schema.ResourceData` of the resource: its four schema fields, the
persisted identifier and the new-resource mark. -/
structure ResourceData where
  endpoint : String
  key : String
  value : String
  label : String
  Id : String
  IsNewResource : Bool
deriving DecidableEq, Repr

/-- The remote state together with the client calls made so far. -/
structure World (σ : Type) where
  remote : σ
  calls : List Call
deriving DecidableEq, Repr

/-- What a handler leaves behind: the diagnostics it returned (or the panic
that aborted it), the resource data and the world. -/
structure Run (σ : Type) where
  result : Except Panic Diagnostics
  d : ResourceData
  world : World σ

/-! ## The handlers -/

/-- `resourceKeyValueRead` of the source. -/
def resourceKeyValueRead {σ : Type} (p : Provider σ) (d : ResourceData) (w : World σ) : Run σ :=
  match parseID d.Id with
  | .error e => ⟨.error e, d, w⟩
  | .ok (endpoint, label, key) =>
    match p.BuildAppConfigurationClient endpoint with
    | .error err => ⟨.ok (FromErr err), d, w⟩
    | .ok cl =>
      let w1 : World σ := ⟨w.remote, w.calls ++ [Call.GetKeyValue label key]⟩
      match cl.GetKeyValue w.remote label key with
      | .error _ => ⟨.ok [], { d with Id := "" }, w1⟩
      | .ok result =>
        let result := if result.Label = "" then { result with Label := p.LabelNone } else result
        ⟨.ok [],
          { d with endpoint := endpoint, key := key, value := result.Value, label := result.Label },
          w1⟩

/-- `resourceKeyValueCreate` of the source. -/
def resourceKeyValueCreate {σ : Type} (p : Provider σ) (d : ResourceData) (w : World σ) : Run σ :=
  let endpoint := d.endpoint
  let key := d.key
  let value := d.value
  let label := d.label
  match p.BuildAppConfigurationClient endpoint with
  | .error err => ⟨.ok (FromErr err), d, w⟩
  | .ok cl =>
    let found : Bool :=
      d.IsNewResource && (match cl.GetKeyValue w.remote label key with
        | .ok _ => true
        | .error _ => false)
    let w1 : World σ :=
      if d.IsNewResource then ⟨w.remote, w.calls ++ [Call.GetKeyValue label key]⟩ else w
    if found then
      ⟨.ok (FromErr ("The resource needs to be imported: " ++ "akc_key_value")), d, w1⟩
    else
      match cl.SetKeyValue w1.remote label key value with
      | (some err, remote) =>
        ⟨.ok (FromErr err), d, ⟨remote, w1.calls ++ [Call.SetKeyValue label key value]⟩⟩
      | (none, remote) =>
        let w2 : World σ := ⟨remote, w1.calls ++ [Call.SetKeyValue label key value]⟩
        match formatID p.urlParse endpoint label key with
        | (_, some err) => ⟨.ok (FromErr err), d, w2⟩
        | (id, none) => resourceKeyValueRead p { d with Id := id } w2

/-- `resourceKeyValueUpdate` of the source. -/
def resourceKeyValueUpdate {σ : Type} (p : Provider σ) (d : ResourceData) (w : World σ) : Run σ :=
  match parseID d.Id with
  | .error e => ⟨.error e, d, w⟩
  | .ok (endpoint, label, key) =>
    let value := d.value
    match p.BuildAppConfigurationClient endpoint with
    | .error err => ⟨.ok (FromErr err), d, w⟩
    | .ok cl =>
      match cl.SetKeyValue w.remote label key value with
      | (some err, remote) =>
        ⟨.ok (FromErr err), d, ⟨remote, w.calls ++ [Call.SetKeyValue label key value]⟩⟩
      | (none, remote) =>
        let w1 : World σ := ⟨remote, w.calls ++ [Call.SetKeyValue label key value]⟩
        match formatID p.urlParse endpoint label key with
        | (_, some err) => ⟨.ok (FromErr err), d, w1⟩
        | (id, none) => resourceKeyValueRead p { d with Id := id } w1

/-- `resourceKeyValueDelete` of the source. -/
def resourceKeyValueDelete {σ : Type} (p : Provider σ) (d : ResourceData) (w : World σ) : Run σ :=
  match parseID d.Id with
  | .error e => ⟨.error e, d, w⟩
  | .ok (endpoint, label, key) =>
    match p.BuildAppConfigurationClient endpoint with
    | .error err => ⟨.ok (FromErr err), d, w⟩
    | .ok cl =>
      match cl.DeleteKeyValue w.remote label key with
      | (some err, remote) =>
        ⟨.ok (FromErr err), d, ⟨remote, w.calls ++ [Call.DeleteKeyValue label key]⟩⟩
      | (none, remote) =>
        ⟨.ok [], { d with Id := "" }, ⟨remote, w.calls ++ [Call.DeleteKeyValue label key]⟩⟩

/-! ## Concrete collaborators for the evaluations -/

/-- A control character in the sense of `net/url`: below 0x20 or 0x7f. -/
def isCTL (c : Char) : Bool := c.toNat < 32 || c.toNat == 127

/-- Stand-in for `url.Parse` of the Go standard library in the concrete
evaluations.  It reads endpoints of the shapes `scheme://host` and
`scheme://host/path` with a plain host name: an endpoint with a control
character is rejected, the scheme is the text before the first `:` when `//`
follows it, the host the text between `//` and the next `/`, the path the
rest.  Any other endpoint is read as a path without host. -/
def urlParse (raw : String) : Except String URL :=
  if raw.data.any isCTL then .error "net/url: invalid control character in URL"
  else
    let scheme := raw.data.takeWhile (fun c => c != ':')
    match raw.data.dropWhile (fun c => c != ':') with
    | ':' :: '/' :: '/' :: rest =>
      .ok ⟨String.mk scheme, String.mk (rest.takeWhile (fun c => c != '/')),
        String.mk (rest.dropWhile (fun c => c != '/'))⟩
    | _ => .ok ⟨"", "", raw⟩

/-- A finite table of entries `(label, key, value)` as remote state. -/
abbrev Table := List (String × String × String)

/-- The entries of a table other than the one at `(label, key)`. -/
def Table.without (t : Table) (label key : String) : Table :=
  t.filter (fun e => !(e.1 == label && e.2.1 == key))

/-- A store client over a table: a lookup fails only when the entry is
absent, a write replaces the entry, a deletion removes it. -/
def tableClient : Client Table where
  GetKeyValue t label key :=
    match t.find? (fun e => e.1 == label && e.2.1 == key) with
    | some e => .ok ⟨e.1, e.2.2⟩
    | none => .error "key-value not found"
  SetKeyValue t label key value := (none, (label, key, value) :: t.without label key)
  DeleteKeyValue t label key := (none, t.without label key)

/-- Modelled from the spec: the value of the constant `client.LabelNone` of
the client package, which the example of the specification writes
`(no label)`. -/
def specLabelNone : String := "(no label)"

/-- A provider whose every endpoint reaches the one table store. -/
def tableProvider : Provider Table where
  urlParse := urlParse
  LabelNone := specLabelNone
  BuildAppConfigurationClient _ := .ok tableClient

/-- A client whose every call fails with the error `msg` and leaves the
remote state alone. -/
def failingClient (msg : String) : Client Table where
  GetKeyValue _ _ _ := .error msg
  SetKeyValue t _ _ _ := (some msg, t)
  DeleteKeyValue t _ _ := (some msg, t)

/-- A provider whose every endpoint reaches `failingClient msg`. -/
def failingProvider (msg : String) : Provider Table where
  urlParse := urlParse
  LabelNone := specLabelNone
  BuildAppConfigurationClient _ := .ok (failingClient msg)

theorem splitFields_eq (sep : Char) (s : List Char) :
    splitFields sep s = firstField sep s ::
      (match afterFirst sep s with
       | none => []
       | some rest => splitFields sep rest) := by
  induction s with
  | nil => rfl
  | cons c cs ih =>
    by_cases h : c = sep
    · subst h
      simp [splitFields, firstField, afterFirst]
    · rw [splitFields, if_neg h, ih]
      simp [firstField, afterFirst, h]

theorem length_splitFields (sep : Char) (s : List Char) :
    (splitFields sep s).length = s.count sep + 1 := by
  induction s with
  | nil => rfl
  | cons c cs ih =>
    by_cases h : c = sep
    · subst h
      simp [splitFields, ih]
    · have hne : (c == sep) = false := by simpa using h
      rw [splitFields, if_neg h, List.count_cons, hne]
      cases hs : splitFields sep cs with
      | nil => rw [hs] at ih; simp at ih
      | cons f fs => rw [hs] at ih; simpa using ih

theorem firstField_append_sep (sep : Char) (a r : List Char) :
    firstField sep (a ++ sep :: r) = firstField sep a := by
  induction a with
  | nil => simp [firstField]
  | cons c cs ih =>
    by_cases h : c = sep
    · subst h; simp [firstField]
    · simp only [firstField] at ih ⊢
      simp [List.takeWhile, h, ih]

theorem firstField_of_not_mem (sep : Char) (a : List Char) (h : sep ∉ a) :
    firstField sep a = a := by
  induction a with
  | nil => rfl
  | cons c cs ih =>
    simp only [List.mem_cons, not_or] at h
    have hc : c ≠ sep := fun e => h.1 e.symm
    have hb : (c != sep) = true := by simpa using hc
    simp only [firstField] at ih ⊢
    rw [List.takeWhile_cons, hb, if_pos rfl, ih h.2]

theorem firstField_ne_of_mem (sep : Char) (a : List Char) (h : sep ∈ a) :
    firstField sep a ≠ a := by
  intro e
  have hm : sep ∈ firstField sep a := by rw [e]; exact h
  have := List.mem_takeWhile_imp hm
  simp at this

theorem afterFirst_append_sep (sep : Char) (a r : List Char) (h : sep ∉ a) :
    afterFirst sep (a ++ sep :: r) = some r := by
  induction a with
  | nil => simp [afterFirst]
  | cons c cs ih =>
    simp only [List.mem_cons, not_or] at h
    have hc : c ≠ sep := fun e => h.1 e.symm
    have hb : (c != sep) = true := by simpa using hc
    simp only [afterFirst] at ih ⊢
    rw [List.cons_append, List.dropWhile_cons, hb, if_pos rfl]
    exact ih h.2

theorem afterFirst_of_not_mem (sep : Char) (a : List Char) (h : sep ∉ a) :
    afterFirst sep a = none := by
  induction a with
  | nil => rfl
  | cons c cs ih =>
    simp only [List.mem_cons, not_or] at h
    have hc : c ≠ sep := fun e => h.1 e.symm
    have hb : (c != sep) = true := by simpa using hc
    simp only [afterFirst] at ih ⊢
    rw [List.dropWhile_cons, hb, if_pos rfl]
    exact ih h.2

theorem parseID_eq (id : String) :
    parseID id = match Split id '/' with
      | [] => .error (.indexOutOfRange 0 0)
      | [_] => .error (.indexOutOfRange 1 1)
      | [_, _] => .error (.indexOutOfRange 2 2)
      | e :: l :: k :: _ => .ok ("https://" ++ e, l, k) := by
  unfold parseID
  rcases Split id '/' with _ | ⟨e, _ | ⟨l, _ | ⟨k, r⟩⟩⟩ <;> rfl

theorem afterFirst_append_sep_field (sep : Char) (a r : List Char) :
    ∃ x, afterFirst sep (a ++ sep :: r) = some x ∧
      firstField sep x = firstField sep
        (match afterFirst sep a with
         | none => r
         | some rest => rest) := by
  induction a with
  | nil => exact ⟨r, by simp [afterFirst], rfl⟩
  | cons c cs ih =>
    by_cases h : c = sep
    · subst h
      refine ⟨cs ++ c :: r, by simp [afterFirst], ?_⟩
      simp [afterFirst, firstField_append_sep]
    · have hb : (c != sep) = true := by simpa using h
      obtain ⟨x, hx, hf⟩ := ih
      refine ⟨x, ?_, ?_⟩
      · simp only [afterFirst] at hx ⊢
        rw [List.cons_append, List.dropWhile_cons, hb, if_pos rfl]
        exact hx
      · rw [hf]
        simp only [afterFirst]
        rw [List.dropWhile_cons, hb, if_pos rfl]

theorem data_formatted (h l k : String) :
    (h ++ "/" ++ l ++ "/" ++ k).data = h.data ++ '/' :: (l.data ++ '/' :: k.data) := by
  simp [String.data_append]

theorem parseID_formatted (h l k : String) (hh : '/' ∉ h.data) :
    parseID (h ++ "/" ++ l ++ "/" ++ k) = .ok ("https://" ++ h, cutLabel l, cutKey l k) := by
  obtain ⟨x, hx, hf⟩ := afterFirst_append_sep_field '/' l.data k.data
  have hs : Split (h ++ "/" ++ l ++ "/" ++ k) '/'
      = h :: cutLabel l :: cutKey l k ::
          (match afterFirst '/' x with
           | none => []
           | some rest => splitFields '/' rest).map String.mk := by
    unfold Split
    rw [data_formatted, splitFields_eq, firstField_append_sep, firstField_of_not_mem _ _ hh,
      afterFirst_append_sep _ _ _ hh]
    simp only []
    rw [splitFields_eq, firstField_append_sep, hx]
    simp only []
    rw [splitFields_eq, hf]
    simp [cutLabel, cutKey]
  rw [parseID_eq, hs]

theorem cutLabel_eq_iff (l : String) : cutLabel l = l ↔ '/' ∉ l.data := by
  constructor
  · intro e hm
    apply firstField_ne_of_mem '/' l.data hm
    have := congrArg String.data e
    simpa [cutLabel] using this
  · intro hn
    simp [cutLabel, firstField_of_not_mem _ _ hn]

theorem cutKey_of_not_mem (l k : String) (hl : '/' ∉ l.data) :
    cutKey l k = String.mk (firstField '/' k.data) := by
  simp [cutKey, afterFirst_of_not_mem _ _ hl]

theorem cutKey_eq_iff (l k : String) (hl : '/' ∉ l.data) : cutKey l k = k ↔ '/' ∉ k.data := by
  rw [cutKey_of_not_mem l k hl]
  constructor
  · intro e hm
    apply firstField_ne_of_mem '/' k.data hm
    have := congrArg String.data e
    simpa using this
  · intro hn
    simp [firstField_of_not_mem _ _ hn]

theorem length_Split (id : String) : (Split id '/').length = id.data.count '/' + 1 := by
  simp [Split, length_splitFields]

theorem parseID_of_few (id : String) (h : id.data.count '/' < 2) :
    parseID id = .error (.indexOutOfRange (id.data.count '/' + 1) (id.data.count '/' + 1)) := by
  have hl := length_Split id
  rw [parseID_eq]
  rcases hs : Split id '/' with _ | ⟨e, _ | ⟨l, _ | ⟨k, r⟩⟩⟩
  · rw [hs] at hl; simp at hl
  · rw [hs] at hl
    have h0 : id.data.count '/' = 0 := by simpa using hl.symm
    simp [h0]
  · rw [hs] at hl
    have h1 : id.data.count '/' = 1 := by simpa using hl.symm
    simp [h1]
  · rw [hs] at hl
    simp only [List.length_cons] at hl
    omega

theorem parseID_of_many (id : String) (h : 2 ≤ id.data.count '/') :
    ∃ e l k, parseID id = .ok (e, l, k) := by
  have hl := length_Split id
  rw [parseID_eq]
  rcases hs : Split id '/' with _ | ⟨e, _ | ⟨l, _ | ⟨k, r⟩⟩⟩
  · rw [hs] at hl; simp at hl
  · rw [hs] at hl; simp only [List.length_cons, List.length_nil] at hl; omega
  · rw [hs] at hl; simp only [List.length_cons, List.length_nil] at hl; omega
  · exact ⟨"https://" ++ e, l, k, rfl⟩

/-! ## The identifier codec: claims -/

/-- C1, evaluated at the example of the specification: the identifier of
endpoint `https://cfg.example.com`, label `(no label)` and key `app/name` is
`cfg.example.com/(no label)/app/name`, and `parseID` decodes it to the key
`app`, not to the key `app/name` that was encoded. -/
theorem parseID_formatID_example_loses_key :
    formatID urlParse "https://cfg.example.com" "(no label)" "app/name"
        = ("cfg.example.com/(no label)/app/name", none) ∧
      parseID (formatID urlParse "https://cfg.example.com" "(no label)" "app/name").1
        = .ok ("https://cfg.example.com", "(no label)", "app") ∧
      parseID (formatID urlParse "https://cfg.example.com" "(no label)" "app/name").1
        ≠ .ok ("https://cfg.example.com", "(no label)", "app/name") := by
  refine ⟨rfl, rfl, ?_⟩
  intro h
  have h2 : parseID (formatID urlParse "https://cfg.example.com" "(no label)" "app/name").1
      = .ok ("https://cfg.example.com", "(no label)", "app") := rfl
  rw [h2] at h
  injection h with h
  revert h
  decide

/-- C8: when the endpoint parses as a URL, `formatID` returns the host, the
label and the key joined by `/` and a nil error, whatever the other parts of
the URL are; it returns the empty identifier and the error `Unable to parse the
given endpoint <endpoint>` exactly when the endpoint does not parse; and the
example of the specification formats to `cfg.example.com/(no label)/app/name`. -/
theorem formatID_spec (parse : String → Except String URL) (endpoint label key : String) :
    (∀ u, parse endpoint = .ok u →
        formatID parse endpoint label key = (u.Host ++ "/" ++ label ++ "/" ++ key, none)) ∧
      (formatID parse endpoint label key
          = ("", some ("Unable to parse the given endpoint " ++ endpoint))
        ↔ ∃ e, parse endpoint = .error e) ∧
      formatID urlParse "https://cfg.example.com" "(no label)" "app/name"
        = ("cfg.example.com/(no label)/app/name", none) := by
  refine ⟨?_, ?_, rfl⟩
  · intro u hu
    simp [formatID, hu]
  · cases hp : parse endpoint with
    | error e => simp [formatID, hp]
    | ok u => simp [formatID, hp]

/-- C10: for an endpoint that parses to a host without `/`, decoding the
formatted identifier never fails; it gives back `https://` followed by the
host, the label and the key exactly when neither the label nor the key holds a
`/`; otherwise the decoded label is the label cut at its first `/` and, when
the label has no `/`, the decoded key is the key cut at its first `/`. -/
theorem parseID_formatID_iff (parse : String → Except String URL)
    (endpoint label key : String) (u : URL)
    (hparse : parse endpoint = .ok u) (hhost : '/' ∉ u.Host.data) :
    (parseID (formatID parse endpoint label key).1 = .ok ("https://" ++ u.Host, label, key)
        ↔ '/' ∉ label.data ∧ '/' ∉ key.data) ∧
      parseID (formatID parse endpoint label key).1
        = .ok ("https://" ++ u.Host, cutLabel label, cutKey label key) ∧
      (cutLabel label).data = label.data.takeWhile (fun c => c != '/') ∧
      ('/' ∈ label.data → cutLabel label ≠ label) ∧
      ('/' ∉ label.data →
        (cutKey label key).data = key.data.takeWhile (fun c => c != '/') ∧
        ('/' ∈ key.data → cutKey label key ≠ key)) := by
  have hf : (formatID parse endpoint label key).1 = u.Host ++ "/" ++ label ++ "/" ++ key := by
    simp [formatID, hparse]
  have hp := parseID_formatted u.Host label key hhost
  rw [hf, hp]
  refine ⟨?_, rfl, rfl, ?_, ?_⟩
  · constructor
    · intro h
      injection h with h
      injection h with _ h
      injection h with h1 h2
      have hl := (cutLabel_eq_iff label).1 h1
      exact ⟨hl, (cutKey_eq_iff label key hl).1 h2⟩
    · rintro ⟨hl, hk⟩
      rw [(cutLabel_eq_iff label).2 hl, (cutKey_eq_iff label key hl).2 hk]
  · intro hm h
    exact (cutLabel_eq_iff label).1 h hm
  · intro hl
    refine ⟨by rw [cutKey_of_not_mem label key hl]; rfl, ?_⟩
    intro hm h
    exact (cutKey_eq_iff label key hl).1 h hm

/-- C10 at the host `cfg.example.com`, the label `(no label)` and the key
`app/name`. -/
theorem parseID_formatID_iff_witness :
    (parseID (formatID urlParse "https://cfg.example.com" "(no label)" "app/name").1
          = .ok ("https://" ++ "cfg.example.com", "(no label)", "app/name")
        ↔ '/' ∉ "(no label)".data ∧ '/' ∉ "app/name".data) ∧
      parseID (formatID urlParse "https://cfg.example.com" "(no label)" "app/name").1
        = .ok ("https://" ++ "cfg.example.com", cutLabel "(no label)",
            cutKey "(no label)" "app/name") :=
  have h := parseID_formatID_iff urlParse "https://cfg.example.com" "(no label)" "app/name"
    ⟨"https", "cfg.example.com", ""⟩ rfl (by decide)
  ⟨h.1, h.2.1⟩

/-! ## The handlers: claims -/

theorem read_formatted {σ : Type} (p : Provider σ) (d : ResourceData) (w : World σ)
    (h l k : String) (cl : Client σ)
    (hid : d.Id = h ++ "/" ++ l ++ "/" ++ k)
    (hh : '/' ∉ h.data) (hl : '/' ∉ l.data) (hk : '/' ∉ k.data)
    (hb : p.BuildAppConfigurationClient ("https://" ++ h) = .ok cl) :
    resourceKeyValueRead p d w =
      match cl.GetKeyValue w.remote l k with
      | .error _ => ⟨.ok [], { d with Id := "" }, ⟨w.remote, w.calls ++ [Call.GetKeyValue l k]⟩⟩
      | .ok result =>
        ⟨.ok [],
          { d with
            endpoint := "https://" ++ h, key := k, value := result.Value,
            label := if result.Label = "" then p.LabelNone else result.Label },
          ⟨w.remote, w.calls ++ [Call.GetKeyValue l k]⟩⟩ := by
  have hp : parseID d.Id = .ok ("https://" ++ h, l, k) := by
    rw [hid, parseID_formatted h l k hh, (cutLabel_eq_iff l).2 hl, (cutKey_eq_iff l k hl).2 hk]
  unfold resourceKeyValueRead
  rw [hp]
  simp only [hb]
  cases cl.GetKeyValue w.remote l k with
  | error e => rfl
  | ok result =>
    by_cases hr : result.Label = "" <;> simp [hr]

/-- C2: when a client is built for the endpoint, the resource is new and the
lookup of `(label, key)` succeeds, `resourceKeyValueCreate` returns the single
error `The resource needs to be imported: akc_key_value`, leaves the resource
data (the identifier included) as it was, leaves the remote state as it was,
and its only client call is that lookup: `SetKeyValue` is not called. -/
theorem create_existing_needs_import {σ : Type} (p : Provider σ) (d : ResourceData)
    (w : World σ) (cl : Client σ) (kv : KeyValue)
    (hb : p.BuildAppConfigurationClient d.endpoint = .ok cl)
    (hnew : d.IsNewResource = true)
    (hget : cl.GetKeyValue w.remote d.label d.key = .ok kv) :
    resourceKeyValueCreate p d w =
      ⟨.ok ["The resource needs to be imported: akc_key_value"], d,
        ⟨w.remote, w.calls ++ [Call.GetKeyValue d.label d.key]⟩⟩ := by
  unfold resourceKeyValueCreate
  simp only [hb, hnew, hget, Bool.and_self, if_true]
  rfl

/-- C2 on a table that already holds the entry `(l, k)`. -/
theorem create_existing_needs_import_witness :
    resourceKeyValueCreate tableProvider
        ⟨"https://cfg.example.com", "k", "v", "l", "", true⟩ ⟨[("l", "k", "old")], []⟩ =
      ⟨.ok ["The resource needs to be imported: akc_key_value"],
        ⟨"https://cfg.example.com", "k", "v", "l", "", true⟩,
        ⟨[("l", "k", "old")], [] ++ [Call.GetKeyValue "l" "k"]⟩⟩ :=
  create_existing_needs_import tableProvider
    ⟨"https://cfg.example.com", "k", "v", "l", "", true⟩ ⟨[("l", "k", "old")], []⟩
    tableClient ⟨"l", "old"⟩ rfl rfl rfl

/-- C6: an identifier with at least two `/` decodes to some
`(endpoint, label, key)`; when a client is built for that endpoint and its
lookup of `(label, key)` fails, `resourceKeyValueRead` returns no diagnostics,
sets the identifier to the empty string and leaves the rest of the resource
data and the remote state as they were, its only client call being the lookup. -/
theorem read_missing_clears_id {σ : Type} (p : Provider σ) (d : ResourceData) (w : World σ)
    (h3 : 2 ≤ d.Id.data.count '/') :
    ∃ e l k, parseID d.Id = .ok (e, l, k) ∧
      ∀ cl err, p.BuildAppConfigurationClient e = .ok cl →
        cl.GetKeyValue w.remote l k = .error err →
        resourceKeyValueRead p d w =
          ⟨.ok [], { d with Id := "" }, ⟨w.remote, w.calls ++ [Call.GetKeyValue l k]⟩⟩ := by
  obtain ⟨e, l, k, hp⟩ := parseID_of_many d.Id h3
  refine ⟨e, l, k, hp, ?_⟩
  intro cl err hb hget
  unfold resourceKeyValueRead
  rw [hp]
  simp only [hb, hget]

/-- C6 on the empty table, for the identifier `cfg.example.com/l/k`. -/
theorem read_missing_clears_id_witness :
    ∃ e l k, parseID "cfg.example.com/l/k" = .ok (e, l, k) ∧
      ∀ cl err, tableProvider.BuildAppConfigurationClient e = .ok cl →
        cl.GetKeyValue [] l k = .error err →
        resourceKeyValueRead tableProvider
            ⟨"https://cfg.example.com", "k", "v", "l", "cfg.example.com/l/k", false⟩ ⟨[], []⟩ =
          ⟨.ok [], ⟨"https://cfg.example.com", "k", "v", "l", "", false⟩,
            ⟨[], [] ++ [Call.GetKeyValue l k]⟩⟩ :=
  read_missing_clears_id tableProvider
    ⟨"https://cfg.example.com", "k", "v", "l", "cfg.example.com/l/k", false⟩ ⟨[], []⟩
    (by decide)

/-- C9: `parseID` returns a result exactly when the identifier holds at least
two `/`; with fewer, it panics at the access `split[n + 1]` of a slice of
length `n + 1`, `n` being the number of `/`, and `resourceKeyValueRead`,
`resourceKeyValueUpdate` and `resourceKeyValueDelete` end in that panic with
the resource data, the remote state and the list of client calls untouched. -/
theorem parseID_safe_iff {σ : Type} (p : Provider σ) (d : ResourceData) (w : World σ) :
    ((∃ r, parseID d.Id = .ok r) ↔ 2 ≤ d.Id.data.count '/') ∧
      (d.Id.data.count '/' < 2 →
        parseID d.Id =
            .error (.indexOutOfRange (d.Id.data.count '/' + 1) (d.Id.data.count '/' + 1)) ∧
          resourceKeyValueRead p d w =
            ⟨.error (.indexOutOfRange (d.Id.data.count '/' + 1) (d.Id.data.count '/' + 1)),
              d, w⟩ ∧
          resourceKeyValueUpdate p d w =
            ⟨.error (.indexOutOfRange (d.Id.data.count '/' + 1) (d.Id.data.count '/' + 1)),
              d, w⟩ ∧
          resourceKeyValueDelete p d w =
            ⟨.error (.indexOutOfRange (d.Id.data.count '/' + 1) (d.Id.data.count '/' + 1)),
              d, w⟩) := by
  constructor
  · constructor
    · rintro ⟨r, hr⟩
      by_contra hlt
      rw [parseID_of_few d.Id (by omega)] at hr
      cases hr
    · intro h
      obtain ⟨e, l, k, hp⟩ := parseID_of_many d.Id h
      exact ⟨_, hp⟩
  · intro h
    have hp := parseID_of_few d.Id h
    refine ⟨hp, ?_, ?_, ?_⟩
    · unfold resourceKeyValueRead; rw [hp]
    · unfold resourceKeyValueUpdate; rw [hp]
    · unfold resourceKeyValueDelete; rw [hp]

/-- C9 at the empty identifier, the value `resourceKeyValueRead` and
`resourceKeyValueDelete` leave behind: every handler that decodes it panics at
`split[1]` before any client call. -/
theorem parseID_safe_iff_witness :
    parseID "" = .error (.indexOutOfRange 1 1) ∧
      resourceKeyValueRead tableProvider ⟨"https://cfg.example.com", "k", "v", "l", "", false⟩
          ⟨[("l", "k", "v")], []⟩ =
        ⟨.error (.indexOutOfRange 1 1), ⟨"https://cfg.example.com", "k", "v", "l", "", false⟩,
          ⟨[("l", "k", "v")], []⟩⟩ ∧
      resourceKeyValueUpdate tableProvider ⟨"https://cfg.example.com", "k", "v", "l", "", false⟩
          ⟨[("l", "k", "v")], []⟩ =
        ⟨.error (.indexOutOfRange 1 1), ⟨"https://cfg.example.com", "k", "v", "l", "", false⟩,
          ⟨[("l", "k", "v")], []⟩⟩ ∧
      resourceKeyValueDelete tableProvider ⟨"https://cfg.example.com", "k", "v", "l", "", false⟩
          ⟨[("l", "k", "v")], []⟩ =
        ⟨.error (.indexOutOfRange 1 1), ⟨"https://cfg.example.com", "k", "v", "l", "", false⟩,
          ⟨[("l", "k", "v")], []⟩⟩ :=
  (parseID_safe_iff tableProvider ⟨"https://cfg.example.com", "k", "v", "l", "", false⟩
    ⟨[("l", "k", "v")], []⟩).2 (by decide)

/-- C3, evaluated on a store that holds the entry `(l, k)` and whose every
call fails with the error `timeout`, a failure other than absence: the lookup
of `resourceKeyValueRead` fails with `timeout`, and the handler returns no
diagnostics and sets the identifier `cfg.example.com/l/k` to the empty string;
on the same store `resourceKeyValueUpdate` and `resourceKeyValueDelete` return
the error `timeout` of their call and keep the identifier. -/
theorem read_timeout_clears_id :
    (failingClient "timeout").GetKeyValue [("l", "k", "v")] "l" "k" = .error "timeout" ∧
      resourceKeyValueRead (failingProvider "timeout")
          ⟨"https://cfg.example.com", "k", "v", "l", "cfg.example.com/l/k", false⟩
          ⟨[("l", "k", "v")], []⟩ =
        ⟨.ok [], ⟨"https://cfg.example.com", "k", "v", "l", "", false⟩,
          ⟨[("l", "k", "v")], [Call.GetKeyValue "l" "k"]⟩⟩ ∧
      resourceKeyValueUpdate (failingProvider "timeout")
          ⟨"https://cfg.example.com", "k", "v", "l", "cfg.example.com/l/k", false⟩
          ⟨[("l", "k", "v")], []⟩ =
        ⟨.ok ["timeout"], ⟨"https://cfg.example.com", "k", "v", "l", "cfg.example.com/l/k", false⟩,
          ⟨[("l", "k", "v")], [Call.SetKeyValue "l" "k" "v"]⟩⟩ ∧
      resourceKeyValueDelete (failingProvider "timeout")
          ⟨"https://cfg.example.com", "k", "v", "l", "cfg.example.com/l/k", false⟩
          ⟨[("l", "k", "v")], []⟩ =
        ⟨.ok ["timeout"], ⟨"https://cfg.example.com", "k", "v", "l", "cfg.example.com/l/k", false⟩,
          ⟨[("l", "k", "v")], [Call.DeleteKeyValue "l" "k"]⟩⟩ :=
  ⟨rfl, rfl, rfl, rfl⟩

/-- C5, as stated, fails for the empty label: on the table store, where the
lookup after the write returns the entry as written (label empty, value `v`),
`resourceKeyValueCreate` returns no diagnostics and keeps the identifier, and
the label in the resource data is the sentinel `(no label)`, not the empty
label that was written. -/
theorem create_empty_label_reads_sentinel :
    tableClient.SetKeyValue [] "" "k" "v" = (none, [("", "k", "v")]) ∧
      tableClient.GetKeyValue [("", "k", "v")] "" "k" = .ok ⟨"", "v"⟩ ∧
      resourceKeyValueCreate tableProvider
          ⟨"https://cfg.example.com", "k", "v", "", "", true⟩ ⟨[], []⟩ =
        ⟨.ok [], ⟨"https://cfg.example.com", "k", "v", "(no label)", "cfg.example.com//k", true⟩,
          ⟨[("", "k", "v")],
            [Call.GetKeyValue "" "k", Call.SetKeyValue "" "k" "v", Call.GetKeyValue "" "k"]⟩⟩ ∧
      (resourceKeyValueCreate tableProvider
          ⟨"https://cfg.example.com", "k", "v", "", "", true⟩ ⟨[], []⟩).d.label ≠ "" :=
  ⟨rfl, rfl, rfl, by decide⟩

/-- C5, amended: let the endpoint parse to a host without `/`, the label and
the key hold no `/`, and the lookup through the client of `https://host` after
the write return the value written under the label written (or under the empty
label when the label written is the sentinel `LabelNone`).  When
`resourceKeyValueCreate` returns no diagnostics, the resource data it leaves
has the value written, the label written (the sentinel when the label written
is empty) and the identifier `host/label/key`; a further
`resourceKeyValueRead` returns no diagnostics and leaves the resource data and
the remote state as they are. -/
theorem create_then_read {σ : Type} (p : Provider σ) (d : ResourceData) (w : World σ)
    (u : URL) (cl cl2 : Client σ)
    (hparse : p.urlParse d.endpoint = .ok u) (hhost : '/' ∉ u.Host.data)
    (hlabel : '/' ∉ d.label.data) (hkey : '/' ∉ d.key.data)
    (hb : p.BuildAppConfigurationClient d.endpoint = .ok cl)
    (hb2 : p.BuildAppConfigurationClient ("https://" ++ u.Host) = .ok cl2)
    (hlaw : ∀ s, cl.SetKeyValue w.remote d.label d.key d.value = (none, s) →
      ∃ kv, cl2.GetKeyValue s d.label d.key = .ok kv ∧ kv.Value = d.value ∧
        (kv.Label = d.label ∨ (kv.Label = "" ∧ d.label = p.LabelNone)))
    (hsucc : (resourceKeyValueCreate p d w).result = .ok []) :
    (resourceKeyValueCreate p d w).d =
        { d with
          endpoint := "https://" ++ u.Host, value := d.value,
          label := if d.label = "" then p.LabelNone else d.label,
          Id := u.Host ++ "/" ++ d.label ++ "/" ++ d.key } ∧
      resourceKeyValueRead p (resourceKeyValueCreate p d w).d (resourceKeyValueCreate p d w).world =
        ⟨.ok [], (resourceKeyValueCreate p d w).d,
          ⟨(resourceKeyValueCreate p d w).world.remote,
            (resourceKeyValueCreate p d w).world.calls ++ [Call.GetKeyValue d.label d.key]⟩⟩ := by
  have hf : formatID p.urlParse d.endpoint d.label d.key
      = (u.Host ++ "/" ++ d.label ++ "/" ++ d.key, none) := by
    simp [formatID, hparse]
  rcases hs : cl.SetKeyValue w.remote d.label d.key d.value with ⟨e1, s1⟩
  have hrem : (if d.IsNewResource = true
      then (⟨w.remote, w.calls ++ [Call.GetKeyValue d.label d.key]⟩ : World σ)
      else w).remote = w.remote := by
    split <;> rfl
  have hC : resourceKeyValueCreate p d w =
      if (d.IsNewResource && (match cl.GetKeyValue w.remote d.label d.key with
        | .ok _ => true
        | .error _ => false)) = true then
        ⟨.ok (FromErr ("The resource needs to be imported: " ++ "akc_key_value")), d,
          if d.IsNewResource = true
            then (⟨w.remote, w.calls ++ [Call.GetKeyValue d.label d.key]⟩ : World σ)
            else w⟩
      else
        match e1 with
        | some err =>
          ⟨.ok (FromErr err), d,
            ⟨s1, (if d.IsNewResource = true
              then (⟨w.remote, w.calls ++ [Call.GetKeyValue d.label d.key]⟩ : World σ)
              else w).calls ++ [Call.SetKeyValue d.label d.key d.value]⟩⟩
        | none =>
          resourceKeyValueRead p { d with Id := u.Host ++ "/" ++ d.label ++ "/" ++ d.key }
            ⟨s1, (if d.IsNewResource = true
              then (⟨w.remote, w.calls ++ [Call.GetKeyValue d.label d.key]⟩ : World σ)
              else w).calls ++ [Call.SetKeyValue d.label d.key d.value]⟩ := by
    unfold resourceKeyValueCreate
    simp only [hb, hrem, hs, hf]
    cases e1 <;> rfl
  rw [hC] at hsucc ⊢
  split at hsucc
  · simp [FromErr] at hsucc
  · rename_i hnf
    rw [if_neg hnf]
    cases e1 with
    | some err => simp [FromErr] at hsucc
    | none =>
      obtain ⟨kv, hg, hv, hlab⟩ := hlaw s1 hs
      have hlab2 : (if kv.Label = "" then p.LabelNone else kv.Label)
          = if d.label = "" then p.LabelNone else d.label := by
        rcases hlab with h1 | ⟨h1, h2⟩
        · rw [h1]
        · rw [if_pos h1, h2]
          split <;> rfl
      simp only
      have hR := fun w0 => read_formatted p
        { d with Id := u.Host ++ "/" ++ d.label ++ "/" ++ d.key } w0
        u.Host d.label d.key cl2 rfl hhost hlabel hkey hb2
      rw [hR]
      simp only [hg, hv, hlab2]
      refine ⟨trivial, ?_⟩
      have hR2 := read_formatted p
        { d with
          endpoint := "https://" ++ u.Host, key := d.key, value := d.value,
          label := if d.label = "" then p.LabelNone else d.label,
          Id := u.Host ++ "/" ++ d.label ++ "/" ++ d.key }
        ⟨s1, (if d.IsNewResource = true
              then (⟨w.remote, w.calls ++ [Call.GetKeyValue d.label d.key]⟩ : World σ)
              else w).calls ++ [Call.SetKeyValue d.label d.key d.value]
              ++ [Call.GetKeyValue d.label d.key]⟩
        u.Host d.label d.key cl2 rfl hhost hlabel hkey hb2
      simp only [hg, hv, hlab2] at hR2
      exact hR2

/-- C5, amended, on the empty table store: the creation of `(l, k)` with the
value `v`. -/
theorem create_then_read_witness :
    (resourceKeyValueCreate tableProvider
        ⟨"https://cfg.example.com", "k", "v", "l", "", true⟩ ⟨[], []⟩).d =
      ⟨"https://cfg.example.com", "k", "v", "l", "cfg.example.com/l/k", true⟩ :=
  (create_then_read tableProvider ⟨"https://cfg.example.com", "k", "v", "l", "", true⟩ ⟨[], []⟩
    ⟨"https", "cfg.example.com", ""⟩ tableClient tableClient rfl (by decide) (by decide)
    (by decide) rfl rfl
    (by
      intro s hs
      have h2 : s = [("l", "k", "v")] := (congrArg Prod.snd hs).symm
      rw [h2]
      exact ⟨⟨"l", "v"⟩, rfl, rfl, Or.inl rfl⟩)
    rfl).1

/-- C7, evaluated on a table that holds the entry `(l, app)`: the creation of
the key `app/name` under the label `l` returns no diagnostics and leaves the
identifier `cfg.example.com/l/app/name`; the deletion of that identifier
returns no diagnostics and clears the identifier, and the table afterwards
still holds the entry `(l, app/name)` that was created, while the entry
`(l, app)` is gone. -/
theorem delete_after_create_removes_other_entry :
    resourceKeyValueCreate tableProvider
        ⟨"https://cfg.example.com", "app/name", "v", "l", "", true⟩
        ⟨[("l", "app", "other")], []⟩ =
      ⟨.ok [], ⟨"https://cfg.example.com", "app", "other", "l", "cfg.example.com/l/app/name", true⟩,
        ⟨[("l", "app/name", "v"), ("l", "app", "other")],
          [Call.GetKeyValue "l" "app/name", Call.SetKeyValue "l" "app/name" "v",
            Call.GetKeyValue "l" "app"]⟩⟩ ∧
      resourceKeyValueDelete tableProvider
        ⟨"https://cfg.example.com", "app", "other", "l", "cfg.example.com/l/app/name", true⟩
        ⟨[("l", "app/name", "v"), ("l", "app", "other")], []⟩ =
      ⟨.ok [], ⟨"https://cfg.example.com", "app", "other", "l", "", true⟩,
        ⟨[("l", "app/name", "v")], [Call.DeleteKeyValue "l" "app"]⟩⟩ :=
  ⟨rfl, rfl⟩

end Akc
